import Mathlib

/-!
# Verification of the Ollama-Code context aggregation engine

Shallow embedding of `context_manager/manager.go` (package `context_manager`).

Modelling conventions:
* Go strings are modelled as `List Char` (`Str`); all Go `strings.*` /
  `filepath.*` helpers used by the source are implemented as executable
  Lean functions on `List Char`.  Lengths are character counts (the Go
  source counts bytes; the two agree on ASCII data).
* Filesystem paths are lists of path segments (`FsPath`); joining with the
  OS separator is explicit.  The filesystem itself is a finite tree of
  directories and files (`FsNode`) rooted at the context manager's root
  path, together with two sets of fault-injected paths: `broken` (paths on
  which `os.Stat` / `os.Lstat` fail) and `readBroken` (paths on which
  `os.ReadFile` fails).
* `filepath.Walk` is modelled faithfully, including its `SkipDir`
  semantics: `SkipDir` returned while visiting a *file* skips the rest of
  that file's parent directory only, and the walk then continues with the
  parent's siblings.
* The mutable `ContextManager` cache maps are explicit association lists
  threaded through the functions (`CMState`); the configuration fields are
  `CMConfig`.  The `sync.RWMutex` is not modelled: every operation is
  embedded as its single-threaded (sequential) semantics.
-/

namespace OllamaCode

set_option maxRecDepth 40000

/-- Go `string`, modelled as a list of characters. -/
abbrev Str := List Char

/-- A filesystem path, as a list of path segments (the Go source
manipulates the joined, separator-interleaved form). -/
abbrev FsPath := List String

/-- One node of the modelled filesystem: a regular file carries its
content and its modification timestamp (`ModTime().UnixNano()`), a
directory carries its named entries (listed in the order `os.ReadDir` /
`readDirNames` would return them, i.e. sorted by name in any concrete
instance). -/
inductive FsNode where
  | file (content : Str) (mtime : Int)
  | dir (entries : List (String × FsNode))

/-- The modelled filesystem: the context manager's root path, the tree
rooted there, and fault injection: `broken` holds the paths on which
`os.Stat`/`os.Lstat` fail, `readBroken` the paths on which `os.ReadFile`
fails. -/
structure Fs where
  root : FsPath
  tree : FsNode
  broken : List FsPath
  readBroken : List FsPath

/-- What the Go callbacks read off an `os.FileInfo`: `Name()`, `IsDir()`
and `ModTime().UnixNano()`. -/
structure FInfo where
  name : String
  isDir : Bool
  mtime : Int
  deriving DecidableEq

/-! ## Go string helpers (on `List Char`) -/

/-- Character class used by `strings.TrimSpace` (ASCII part of
`unicode.IsSpace`). -/
def isSpaceCh (c : Char) : Bool :=
  c == ' ' || c == '\t' || c == '\n' || c == '\r' || c.val == 11 || c.val == 12

/-- Go `strings.TrimSpace`. -/
def trimSpace (s : Str) : Str :=
  ((s.dropWhile isSpaceCh).reverse.dropWhile isSpaceCh).reverse

/-- Does `p` occur at the start of `s`?  (Go `strings.HasPrefix`.) -/
def hasPrefixStr : Str → Str → Bool
  | [], _ => true
  | _ :: _, [] => false
  | a :: as, b :: bs => a == b && hasPrefixStr as bs

/-- Go `strings.HasSuffix`. -/
def hasSuffixStr (p s : Str) : Bool :=
  hasPrefixStr p.reverse s.reverse

/-- Go `strings.TrimPrefix`. -/
def trimPrefixStr (p s : Str) : Str :=
  if hasPrefixStr p s then s.drop p.length else s

/-- Go `strings.TrimSuffix`. -/
def trimSuffixStr (p s : Str) : Str :=
  if hasSuffixStr p s then s.take (s.length - p.length) else s

/-- Go `strings.Trim`: remove every leading and trailing character that
occurs in the cutset. -/
def trimCutset (cut : List Char) (s : Str) : Str :=
  ((s.dropWhile cut.contains).reverse.dropWhile cut.contains).reverse

/-- Go `strings.Contains` (`hay` contains `needle`). -/
def containsStr (hay needle : Str) : Bool :=
  hasPrefixStr needle hay ||
    match hay with
    | [] => false
    | _ :: rest => containsStr rest needle

/-- Go `strings.ToLower` (ASCII; the source may see Unicode, where Go's
case table is richer — irrelevant to the verified properties). -/
def toLowerStr (s : Str) : Str := s.map Char.toLower

/-- Scanner for `splitOnStr`: consume the input one character at a time;
a positive skip counter means we are inside an already-recognised
separator occurrence. -/
def splitGo (sep : Str) : Str → Nat → Str → List Str
  | [], _, acc => [acc.reverse]
  | _ :: rest, Nat.succ k, acc => splitGo sep rest k acc
  | c :: rest, 0, acc =>
    if hasPrefixStr sep (c :: rest) then
      acc.reverse :: splitGo sep rest (sep.length - 1) []
    else
      splitGo sep rest 0 (c :: acc)

/-- Go `strings.Split s sep`: split around every non-overlapping
occurrence of `sep`, scanning left to right (for empty `sep`, Go splits
after every character). -/
def splitOnStr (sep : Str) (s : Str) : List Str :=
  if sep.isEmpty then s.map (fun c => [c]) else splitGo sep s 0 []

/-- Go `strings.ReplaceAll s old new` for a non-empty `old`. -/
def replaceAllStr (old new : Str) (s : Str) : Str :=
  List.intercalate new (splitOnStr old s)

/-- Go `strings.Repeat`. -/
def repeatStr (s : Str) (n : Nat) : Str :=
  (List.replicate n s).flatten

/-! ## Go path helpers -/

/-- `filepath.Base`: the last path segment. -/
def baseNameOf (p : FsPath) : String := p.getLastD ""

/-- `filepath.Ext`: the suffix of the name starting at its last dot
(empty if the name has no dot). -/
def fileExtOf (name : Str) : Str :=
  let r := name.reverse
  let afterDot := r.takeWhile (· ≠ '.')
  if afterDot.length == r.length then [] else '.' :: afterDot.reverse

/-- `filepath.Join dir rel` for a relative textual path `rel` (slash
separated), including the `filepath.Clean` normalisation of `.` and `..`
segments that `Join` performs.  (`..` above the root of `dir` is dropped,
which agrees with `Clean` only while the walk stays below `dir`; every
call site in the source resolves imports below the primary file's
directory.) -/
def joinRel (dir : FsPath) (rel : Str) : FsPath :=
  (splitOnStr ['/'] rel).foldl
    (fun acc seg =>
      if seg.isEmpty || seg == ['.'] then acc
      else if seg == ['.', '.'] then acc.dropLast
      else acc ++ [String.mk seg])
    dir

/-- `filepath.Rel fs.root p` as used by the source (result ignored when
`Rel` fails; `Rel` returns `""` alongside the error, and every successful
call site passes a path below the root, where `Rel` just strips the root
prefix, or the root itself, where it returns `"."`). -/
def relStr (fs : Fs) (p : FsPath) : Str :=
  if fs.root.isPrefixOf p then
    let r := p.drop fs.root.length
    if r.isEmpty then ['.'] else (String.intercalate "/" r).toList
  else []

/-! ## Filesystem primitives -/

/-- Pure lookup of a path inside a node (no fault injection). -/
def lookupNode : FsNode → FsPath → Option FsNode
  | n, [] => some n
  | .file _ _, _ :: _ => none
  | .dir es, x :: xs =>
    match es.find? (fun e => e.1 == x) with
    | some e => lookupNode e.2 xs
    | none => none

/-- Resolve a path against the whole filesystem (must lie below the
root). -/
def lookupPath (fs : Fs) (p : FsPath) : Option FsNode :=
  if fs.root.isPrefixOf p then lookupNode fs.tree (p.drop fs.root.length) else none

/-- The `os.FileInfo` view of a node (a directory's modification time is
never read by the source, so it is fixed to 0 here). -/
def nodeInfo (name : String) : FsNode → FInfo
  | .file _ m => ⟨name, false, m⟩
  | .dir _ => ⟨name, true, 0⟩

/-- `os.Stat` / `os.Lstat`: fails on fault-injected paths and on paths
that do not exist. -/
def statFs (fs : Fs) (p : FsPath) : Option FInfo :=
  if fs.broken.contains p then none
  else (lookupPath fs p).map (nodeInfo (baseNameOf p))

/-- `os.ReadFile`: fails on fault-injected paths, on missing paths and on
directories. -/
def readFileFs (fs : Fs) (p : FsPath) : Option Str :=
  if fs.readBroken.contains p then none
  else
    match lookupPath fs p with
    | some (.file c _) => some c
    | _ => none

/-- `os.ReadDir`: the entries of a directory (fails on fault-injected,
missing or non-directory paths). -/
def readDirFs (fs : Fs) (p : FsPath) : Option (List (String × FsNode)) :=
  if fs.broken.contains p then none
  else
    match lookupPath fs p with
    | some (.dir es) => some es
    | _ => none

/-! ## ContextManager: configuration and mutable state -/

/-- The configuration fields of `ContextManager` (`ignoreDirs`,
`ignoreFiles`, `maxContextLen`); `rootPath` lives in `Fs`. -/
structure CMConfig where
  ignoreDirs : List String
  ignoreFiles : List Str
  maxContextLen : Nat

/-- `NewContextManager`'s configuration, parameterised by the
`ID=kali` detection of the host (`isKaliLinux`). -/
def newContextManager (isKali : Bool) : CMConfig :=
  { ignoreDirs :=
      [".git", "node_modules", "__pycache__", "venv", ".env", ".venv"] ++
        (if isKali then [".msf4", "metasploit-framework", "wordlists", "exploitdb"]
         else []),
    ignoreFiles :=
      [".DS_Store".toList, "*.pyc".toList, "*.o".toList, "*.out".toList, "*.log".toList],
    maxContextLen := 16384 }

/-- The mutable cache maps of `ContextManager` (`fileCache`,
`fileMtimes`), as association lists keyed by path. -/
structure CMState where
  fileCache : List (FsPath × Str)
  fileMtimes : List (FsPath × Int)

/-- The empty cache (`NewContextManager`'s two fresh maps). -/
def CMState.empty : CMState := ⟨[], []⟩

/-- Go map read `m[k]`. -/
def lookupA {β : Type} (l : List (FsPath × β)) (k : FsPath) : Option β :=
  (l.find? (fun e => e.1 == k)).map (·.2)

/-- Go map write `m[k] = v`. -/
def insertA {β : Type} (l : List (FsPath × β)) (k : FsPath) (v : β) :
    List (FsPath × β) :=
  (k, v) :: l.filter (fun e => ¬ e.1 == k)

/-! ## ShouldIgnore -/

/-- Helper for `globMatch`: try the continuation on every suffix of the
name (this is how `*` consumes an arbitrary run of characters). -/
def starScan (k : Str → Bool) : Str → Bool
  | [] => k []
  | n :: ns' => k (n :: ns') || starScan k ns'

/-- `filepath.Match` restricted to the metacharacters the configured
patterns use (`*` matching any run of non-separator characters, `?`
matching one character, every other character literally; base names
contain no separator).  The Go matcher additionally supports character
classes and escapes, and can fail on malformed patterns — the source
treats a match error as a non-match, and no configured pattern is
malformed. -/
def globMatch : Str → Str → Bool
  | [] => fun ns => ns.isEmpty
  | '*' :: ps => starScan (globMatch ps)
  | p :: ps => fun ns =>
    match ns with
    | [] => false
    | n :: ns' => (p == '?' || p == n) && globMatch ps ns'

/-- `ContextManager.ShouldIgnore` (manager.go:114-139). -/
def shouldIgnore (fs : Fs) (cm : CMConfig) (path : FsPath) : Bool :=
  let base := baseNameOf path
  match statFs fs path with
  | none => false
  | some info =>
    if info.isDir then
      cm.ignoreDirs.any (fun d => d == base)
    else
      cm.ignoreFiles.any (fun pat => globMatch pat base.toList)

/-! ## GetFileContent -/

/-- The slow path of `GetFileContent` (manager.go:93-110): read the file,
then — only if a fresh stat succeeds — overwrite both cache maps.  The
third component records that a filesystem read was performed. -/
def readAndCache (fs : Fs) (st : CMState) (p : FsPath) :
    Option Str × CMState × Bool :=
  match readFileFs fs p with
  | none => (none, st, true)
  | some content =>
    match statFs fs p with
    | some info =>
      (some content,
        ⟨insertA st.fileCache p content, insertA st.fileMtimes p info.mtime⟩,
        true)
    | none => (some content, st, true)

/-- `ContextManager.GetFileContent` (manager.go:79-111).  Returns the
content (`none` = error), the updated cache state, and whether the file
was (re-)read from disk. -/
def GetFileContent (fs : Fs) (st : CMState) (p : FsPath) :
    Option Str × CMState × Bool :=
  match lookupA st.fileCache p with
  | some content =>
    match statFs fs p with
    | some info =>
      match lookupA st.fileMtimes p with
      | some mtime =>
        if mtime == info.mtime then (some content, st, false)
        else readAndCache fs st p
      | none => readAndCache fs st p
    | none => readAndCache fs st p
  | none => readAndCache fs st p

/-! ## filepath.Walk -/

/-- The three outcomes a `filepath.WalkFunc` can produce that the source
distinguishes: `nil`, `filepath.SkipDir`, and any other error. -/
inductive WRes where
  | ok
  | skipDir
  | err
  deriving DecidableEq

/-- A walk callback: state, the visited path, its `FileInfo` (`none` when
the per-entry `lstat` failed, in which case a non-nil error was passed to
the Go callback). -/
abbrev WalkFn (σ : Type) := σ → FsPath → Option FInfo → σ × WRes

mutual

/-- `filepath.walk` on a node whose `lstat` already succeeded
(`path/filepath/path.go`): visit the node; for a directory whose callback
returned `nil`, iterate the children in order. -/
def walkNode {σ : Type} (fn : WalkFn σ) (broken : List FsPath)
    (s : σ) (path : FsPath) (name : String) : FsNode → σ × WRes
  | .file c m =>
    fn s path (some (nodeInfo name (.file c m)))
  | .dir es =>
    match fn s path (some (nodeInfo name (.dir es))) with
    | (s1, .ok) => walkEntries fn broken s1 path es
    | (s1, r) => (s1, r)

/-- The child loop of `filepath.walk`: a child whose `lstat` fails is
reported to the callback with a nil `FileInfo`; a recursive result of
`SkipDir` is swallowed when the child is a directory and propagated when
the child is a file (which makes `SkipDir` returned on a file abort the
rest of its parent directory only). -/
def walkEntries {σ : Type} (fn : WalkFn σ) (broken : List FsPath)
    (s : σ) (path : FsPath) : List (String × FsNode) → σ × WRes
  | [] => (s, .ok)
  | (n, c) :: rest =>
    if broken.contains (path ++ [n]) then
      match fn s (path ++ [n]) none with
      | (s', .err) => (s', .err)
      | (s', .ok) => walkEntries fn broken s' path rest
      | (s', .skipDir) => walkEntries fn broken s' path rest
    else
      match walkNode fn broken s (path ++ [n]) n c with
      | (s', .ok) => walkEntries fn broken s' path rest
      | (s', .skipDir) =>
        match c with
        | .dir _ => walkEntries fn broken s' path rest
        | .file _ _ => (s', .skipDir)
      | (s', .err) => (s', .err)

end

/-- `filepath.Walk fs.root`: `lstat` the root first (reporting a failure
to the callback), then walk; a final `SkipDir` is converted to `nil`.
Returns the final state and whether the call failed. -/
def walkFs {σ : Type} (fs : Fs) (fn : WalkFn σ) (s0 : σ) : σ × Bool :=
  match statFs fs fs.root with
  | none =>
    match fn s0 fs.root none with
    | (s, r) => (s, r == .err)
  | some _ =>
    match walkNode fn fs.broken s0 fs.root (baseNameOf fs.root) fs.tree with
    | (s, r) => (s, r == .err)

/-! ## GetProjectStructure -/

/-- The walk callback of `GetProjectStructure` (manager.go:146-180).
A per-entry error is returned unchanged (`if err != nil { return err }`),
so it aborts the walk.  `filepath.Rel` cannot fail on the paths this walk
produces (they all lie below the root), so the `relPath` error branch is
unreachable and not modelled. -/
def gpsStep (fs : Fs) (cm : CMConfig) : WalkFn Str := fun s path info? =>
  match info? with
  | none => (s, .err)
  | some info =>
    if path ≠ fs.root && shouldIgnore fs cm path then
      if info.isDir then (s, .skipDir) else (s, .ok)
    else
      let rel := path.drop fs.root.length
      if rel.isEmpty then (s, .ok)
      else
        let depth := rel.length - 1
        let indent := repeatStr [' ', ' '] depth
        if info.isDir then
          (s ++ indent ++ info.name.toList ++ ['/', '\n'], .ok)
        else
          (s ++ indent ++ info.name.toList ++ ['\n'], .ok)

/-- `ContextManager.GetProjectStructure` (manager.go:142-187): `none`
models the error return. -/
def GetProjectStructure (fs : Fs) (cm : CMConfig) : Option Str :=
  match walkFs fs (gpsStep fs cm) "Project Structure:\n".toList with
  | (_, true) => none
  | (s, false) => some s

/-! ## GetRelevantFiles -/

/-- The walk callback of `GetRelevantFiles` (manager.go:193-224).
A per-entry error is swallowed (`return nil`).  Note the match is
appended *before* the size check, and the size check answers
`filepath.SkipDir` even from a file callback. -/
def grfStep (fs : Fs) (cm : CMConfig) (query : Str) (maxFiles : Nat) :
    WalkFn (List FsPath) := fun s path info? =>
  match info? with
  | none => (s, .ok)
  | some info =>
    if info.isDir then
      if shouldIgnore fs cm path then (s, .skipDir) else (s, .ok)
    else if shouldIgnore fs cm path then (s, .ok)
    else
      let rel := relStr fs path
      let s' := if containsStr (toLowerStr rel) (toLowerStr query) then s ++ [path] else s
      if maxFiles ≤ s'.length then (s', .skipDir) else (s', .ok)

/-- `ContextManager.GetRelevantFiles` (manager.go:190-227): the collected
paths plus the error flag of the walk. -/
def GetRelevantFiles (fs : Fs) (cm : CMConfig) (query : Str) (maxFiles : Nat) :
    List FsPath × Bool :=
  walkFs fs (grfStep fs cm query maxFiles) []

/-! ## findRelatedFiles -/

/-- The `.go` files directly inside a directory's entry list
(manager.go:301-305). -/
def goFilesIn (resolved : FsPath) (es : List (String × FsNode)) : List FsPath :=
  es.filterMap fun e =>
    match e.2 with
    | .file _ _ =>
      if fileExtOf e.1.toList == ".go".toList then some (resolved ++ [e.1]) else none
    | .dir _ => none

/-- The `.py` files directly inside a directory's entry list
(manager.go:377-381). -/
def pyFilesIn (resolved : FsPath) (es : List (String × FsNode)) : List FsPath :=
  es.filterMap fun e =>
    match e.2 with
    | .file _ _ =>
      if fileExtOf e.1.toList == ".py".toList then some (resolved ++ [e.1]) else none
    | .dir _ => none

/-- One line of the `.go` strategy of `findRelatedFiles`
(manager.go:280-311). -/
def goLineRelated (fs : Fs) (dir : FsPath) (line0 : Str) : List FsPath :=
  let line := trimSpace line0
  if hasPrefixStr "import ".toList line ||
      (hasPrefixStr "import(".toList line && !hasSuffixStr ")".toList line) then
    if hasPrefixStr "import (".toList line then []
    else if hasPrefixStr "import \"".toList line then
      let importPath := trimCutset ['\"'] (trimPrefixStr "import ".toList line)
      if hasPrefixStr "./".toList importPath || hasPrefixStr "../".toList importPath then
        let resolved := joinRel dir importPath
        match statFs fs resolved with
        | some info =>
          if !info.isDir then [resolved]
          else
            match readDirFs fs resolved with
            | some es => goFilesIn resolved es
            | none => []
        | none => []
      else []
    else []
  else []

/-- Try `resolvedPath + ext` for each listed extension, keeping the first
that stats as a regular file (manager.go:339-347). -/
def tryJsExts (fs : Fs) (resolved : FsPath) : List Str → List FsPath
  | [] => []
  | e :: rest =>
    let withExt := resolved.dropLast ++ [String.mk ((baseNameOf resolved).toList ++ e)]
    match statFs fs withExt with
    | some info => if !info.isDir then [withExt] else tryJsExts fs resolved rest
    | none => tryJsExts fs resolved rest

/-- One line of the `.js`/`.ts` strategy of `findRelatedFiles`
(manager.go:315-350).  When the resolved path stats as a *directory*,
nothing is added. -/
def jsLineRelated (fs : Fs) (dir : FsPath) (line0 : Str) : List FsPath :=
  let line := trimSpace line0
  if hasPrefixStr "import ".toList line || hasPrefixStr "require(".toList line then
    let importPath :=
      if hasPrefixStr "import ".toList line then
        match splitOnStr "from".toList line with
        | _ :: p1 :: _ => trimCutset ['\'', '\"', ';', '\r', '\n'] (trimSpace p1)
        | _ => []
      else
        trimCutset ['\'', '\"']
          (trimSpace (trimSuffixStr ");".toList (trimPrefixStr "require(".toList line)))
    if !importPath.isEmpty &&
        (hasPrefixStr "./".toList importPath || hasPrefixStr "../".toList importPath) then
      let resolved := joinRel dir importPath
      match statFs fs resolved with
      | some info => if !info.isDir then [resolved] else []
      | none =>
        tryJsExts fs resolved [".js".toList, ".ts".toList, ".jsx".toList, ".tsx".toList]
    else []
  else []

/-- One line of the `.py` strategy of `findRelatedFiles`
(manager.go:354-387). -/
def pyLineRelated (fs : Fs) (dir : FsPath) (line0 : Str) : List FsPath :=
  let line := trimSpace line0
  if hasPrefixStr "import ".toList line || hasPrefixStr "from ".toList line then
    if hasPrefixStr "from ".toList line then
      let parts := splitOnStr "import".toList line
      let module := trimSpace (trimPrefixStr "from ".toList (parts.headD []))
      if hasPrefixStr ".".toList module then
        let modulePath :=
          if module == ['.'] then [] else replaceAllStr ['.'] ['/'] module
        let resolvedDir := joinRel dir modulePath
        match readDirFs fs resolvedDir with
        | some es => pyFilesIn resolvedDir es
        | none => []
      else []
    else []
  else []

/-- The sibling-by-basename scan of `findRelatedFiles`
(manager.go:390-408). -/
def siblingFiles (fs : Fs) (dir : FsPath) (base ext : Str) : List FsPath :=
  let baseWithoutExt := trimSuffixStr ext base
  match readDirFs fs dir with
  | none => []
  | some es =>
    es.filterMap fun e =>
      match e.2 with
      | .dir _ => none
      | .file _ _ =>
        let name := e.1.toList
        if trimSuffixStr (fileExtOf name) name == baseWithoutExt && name ≠ base then
          some (dir ++ [e.1])
        else none

/-- `ContextManager.findRelatedFiles` (manager.go:271-411): per-language
scan of import lines (dispatch on the primary file's extension, one pass over its
lines, contributions appended in line order), then the sibling scan. -/
def findRelatedFiles (fs : Fs) (filePath : FsPath) (content : Str) : List FsPath :=
  let ext := fileExtOf (baseNameOf filePath).toList
  let dir := filePath.dropLast
  let lines := splitOnStr ['\n'] content
  let fromImports :=
    if ext == ".go".toList then lines.flatMap (goLineRelated fs dir)
    else if ext == ".js".toList || ext == ".ts".toList then
      lines.flatMap (jsLineRelated fs dir)
    else if ext == ".py".toList then lines.flatMap (pyLineRelated fs dir)
    else []
  fromImports ++ siblingFiles fs dir (baseNameOf filePath).toList ext

/-! ## GetFileContext -/

/-- The primary block `fmt.Sprintf("File: %s\n\n‹fence›\n%s\n‹fence›\n\n", relPath,
content)` of manager.go:241. -/
def mkPrimary (relPath content : Str) : Str :=
  "File: ".toList ++ relPath ++ "\n\n```\n".toList ++ content ++ "\n```\n\n".toList

/-- The related block of manager.go:255. -/
def mkRelated (relPath content : Str) : Str :=
  "Related file: ".toList ++ relPath ++ "\n\n```\n".toList ++ content ++
    "\n```\n\n".toList

/-- The truncation notice of manager.go:259. -/
def mkNotice (relPath : Str) : Str :=
  "(Additional related file ".toList ++ relPath ++
    " not included due to context length limits)\n".toList

/-- The loop body of `GetFileContext` (manager.go:248-265): fetch the
related file through the cache (skip on error), then either append its
block and count it, or append the inline truncation notice, counting
nothing. -/
def ctxStep (fs : Fs) (cm : CMConfig) (acc : Str × Nat × CMState) (rf : FsPath) :
    Str × Nat × CMState :=
  match GetFileContent fs acc.2.2 rf with
  | (none, st', _) => (acc.1, acc.2.1, st')
  | (some rc, st', _) =>
    let fileContext := mkRelated (relStr fs rf) rc
    if cm.maxContextLen < acc.2.1 + fileContext.length then
      (acc.1 ++ mkNotice (relStr fs rf), acc.2.1, st')
    else
      (acc.1 ++ fileContext, acc.2.1 + fileContext.length, st')

/-- `ContextManager.GetFileContext` (manager.go:230-268): primary block,
then one pass over the related files, each fetched through the cache
(fetch errors skipped), appended when it fits the running budget and
replaced by an inline truncation notice (not counted towards the running
total) when it does not. -/
def GetFileContext (fs : Fs) (cm : CMConfig) (st : CMState) (filePath : FsPath) :
    Option Str × CMState :=
  match GetFileContent fs st filePath with
  | (none, st', _) => (none, st')
  | (some content, st1, _) =>
    let ctx0 := mkPrimary (relStr fs filePath) content
    let res :=
      (findRelatedFiles fs filePath content).foldl (ctxStep fs cm)
        (ctx0, ctx0.length, st1)
    (some res.1, res.2.2)

/-! ### The same assembly, viewed as a list of sections -/

/-- One section of an assembled context. -/
inductive CtxSection where
  | primary (relPath body : Str)
  | related (relPath body : Str)
  | notice (relPath : Str)
  deriving DecidableEq

/-- The text a section contributes to the assembled output. -/
def renderSection : CtxSection → Str
  | .primary r b => mkPrimary r b
  | .related r b => mkRelated r b
  | .notice r => mkNotice r

/-- The relative path a section names. -/
def sectionPath : CtxSection → Str
  | .primary r _ => r
  | .related r _ => r
  | .notice r => r

/-- Concatenated rendering of a section list. -/
def joinRender : List CtxSection → Str
  | [] => []
  | s :: rest => renderSection s ++ joinRender rest

/-- The loop body of `GetFileContext`, recorded as sections. -/
def sectionStep (fs : Fs) (cm : CMConfig)
    (acc : List CtxSection × Nat × CMState) (rf : FsPath) :
    List CtxSection × Nat × CMState :=
  match GetFileContent fs acc.2.2 rf with
  | (none, st', _) => (acc.1, acc.2.1, st')
  | (some rc, st', _) =>
    let fileContext := mkRelated (relStr fs rf) rc
    if cm.maxContextLen < acc.2.1 + fileContext.length then
      (acc.1 ++ [.notice (relStr fs rf)], acc.2.1, st')
    else
      (acc.1 ++ [.related (relStr fs rf) rc], acc.2.1 + fileContext.length, st')

/-- `GetFileContext`, producing the section list instead of the flat
text (`joinRender` of the result is proved equal to `GetFileContext`'s
output in `getFileContext_eq_joinRender`). -/
def assembleSections (fs : Fs) (cm : CMConfig) (st : CMState) (filePath : FsPath) :
    Option (List CtxSection) × CMState :=
  match GetFileContent fs st filePath with
  | (none, st', _) => (none, st')
  | (some content, st1, _) =>
    let p0 : CtxSection := .primary (relStr fs filePath) content
    let res :=
      (findRelatedFiles fs filePath content).foldl (sectionStep fs cm)
        ([p0], (renderSection p0).length, st1)
    (some res.1, res.2.2)

/-- Total rendered size of the related sections of a section list. -/
def relatedTotal (l : List CtxSection) : Nat :=
  (l.map fun s =>
    match s with
    | .related r b => (mkRelated r b).length
    | _ => 0).sum

/-- Total rendered size of the primary sections of a section list. -/
def primaryTotal (l : List CtxSection) : Nat :=
  (l.map fun s =>
    match s with
    | .primary r b => (mkPrimary r b).length
    | _ => 0).sum

/-- Total rendered size of the truncation notices of a section list. -/
def noticeTotal (l : List CtxSection) : Nat :=
  (l.map fun s =>
    match s with
    | .notice r => (mkNotice r).length
    | _ => 0).sum

/-- Size of the largest truncation notice of a section list. -/
def noticeMax (l : List CtxSection) : Nat :=
  (l.map fun s =>
    match s with
    | .notice r => (mkNotice r).length
    | _ => 0).foldr max 0

/-- Is any truncation notice followed, later in the list, by a related
section? -/
def noticeBeforeRelated : List CtxSection → Bool
  | [] => false
  | .notice _ :: rest => rest.any (fun s => match s with | .related _ _ => true | _ => false) || noticeBeforeRelated rest
  | _ :: rest => noticeBeforeRelated rest

/-! ## Concrete instances used by witnesses and counterexamples -/

/-- The default configuration on a non-Kali host. -/
def cmDefault : CMConfig := newContextManager false

/-- A project with two sibling directories, each containing one file
whose relative path matches the query `"m"`. -/
def fsTwoDirs : Fs :=
  { root := ["r"],
    tree := .dir [("a", .dir [("m.txt", .file [] 0)]),
                  ("b", .dir [("m.txt", .file [] 0)])],
    broken := [], readBroken := [] }

/-- A 100-character related-file body that cannot fit a 100-character
budget. -/
def bigBody : Str := List.replicate 100 'z'

/-- A Go project: `a.go` imports the local directory `./lib`, which holds
a large and a small `.go` file. -/
def fsBudget : Fs :=
  { root := ["r"],
    tree := .dir [("a.go", .file "import \"./lib\"".toList 0),
                  ("lib", .dir [("big.go", .file bigBody 0),
                                ("small.go", .file ['x'] 0)])],
    broken := [], readBroken := [] }

/-- The default configuration with `SetMaxContextLength(100)` applied. -/
def cmBudget : CMConfig :=
  { ignoreDirs := cmDefault.ignoreDirs, ignoreFiles := cmDefault.ignoreFiles,
    maxContextLen := 100 }

/-- A project in which `lstat` fails on the first directory entry. -/
def fsBrokenEntry : Fs :=
  { root := ["r"],
    tree := .dir [("x.txt", .file [] 0), ("y.txt", .file [] 0)],
    broken := [["r", "x.txt"]], readBroken := [] }

/-- A JS project: `a.js` imports the local directory `./lib`, which holds
a `.js` file. -/
def fsJsDir : Fs :=
  { root := ["r"],
    tree := .dir [("a.js", .file "import x from './lib'".toList 0),
                  ("lib", .dir [("b.js", .file [] 0)])],
    broken := [], readBroken := [] }

/-- A filesystem holding `f.txt` with content `"old"` at timestamp 10. -/
def fsOld : Fs :=
  { root := ["r"], tree := .dir [("f.txt", .file "old".toList 10)],
    broken := [], readBroken := [] }

/-- The same filesystem after `f.txt` was rewritten: content `"new"`,
timestamp 20. -/
def fsNew : Fs :=
  { root := ["r"], tree := .dir [("f.txt", .file "new".toList 20)],
    broken := [], readBroken := [] }

/-- A cache state that already holds `f.txt` as of timestamp 10. -/
def stWarm : CMState :=
  ⟨[(["r", "f.txt"], "old".toList)], [(["r", "f.txt"], 10)]⟩

/-- A filesystem on which reading `g.txt` fails although the file is
statable. -/
def fsReadFail : Fs :=
  { root := ["r"], tree := .dir [("g.txt", .file "data".toList 7)],
    broken := [], readBroken := [["r", "g.txt"]] }

/-- The fast-path condition of `GetFileContent`, exactly as the spec
words it: a cache entry for the path exists and its stored timestamp
equals the file's current on-disk timestamp. -/
def fastPathHit (fs : Fs) (st : CMState) (p : FsPath) : Bool :=
  match lookupA st.fileCache p, statFs fs p, lookupA st.fileMtimes p with
  | some _, some info, some m => m == info.mtime
  | _, _, _ => false

/-- The section list `GetFileContext` produces on `fsBudget` with budget
100: the primary block (36 chars), an inline notice for `lib/big.go`
(its block, 136 chars, would blow the budget), then the related block of
`lib/small.go` (39 chars, which still fits). -/
def budgetSections : List CtxSection :=
  [.primary "a.go".toList "import \"./lib\"".toList,
   .notice "lib/big.go".toList,
   .related "lib/small.go".toList ['x']]

/-! ## Helper lemmas -/

theorem lookupA_insertA_self {β : Type} (l : List (FsPath × β)) (k : FsPath) (v : β) :
    lookupA (insertA l k v) k = some v := by
  simp [lookupA, insertA]

theorem readAndCache_read_flag (fs : Fs) (st : CMState) (p : FsPath) :
    (readAndCache fs st p).2.2 = true := by
  unfold readAndCache
  cases readFileFs fs p with
  | none => rfl
  | some c =>
    cases statFs fs p with
    | none => rfl
    | some info => rfl

theorem getFileContent_hit (fs : Fs) (st : CMState) (p : FsPath)
    (h : fastPathHit fs st p = true) :
    GetFileContent fs st p = (lookupA st.fileCache p, st, false) := by
  unfold fastPathHit at h
  unfold GetFileContent
  cases hc : lookupA st.fileCache p with
  | none => simp [hc] at h
  | some content =>
    cases hs : statFs fs p with
    | none => simp [hc, hs] at h
    | some info =>
      cases hm : lookupA st.fileMtimes p with
      | none => simp [hc, hs, hm] at h
      | some m =>
        simp only [hc, hs, hm] at h
        simp [hc, hs, hm, h]

theorem getFileContent_miss_eq (fs : Fs) (st : CMState) (p : FsPath)
    (h : fastPathHit fs st p = false) :
    GetFileContent fs st p = readAndCache fs st p := by
  unfold fastPathHit at h
  unfold GetFileContent
  cases hc : lookupA st.fileCache p with
  | none => rfl
  | some content =>
    cases hs : statFs fs p with
    | none => rfl
    | some info =>
      cases hm : lookupA st.fileMtimes p with
      | none => rfl
      | some m =>
        simp only [hc, hs, hm] at h
        simp [h]

theorem getFileContent_miss_flag (fs : Fs) (st : CMState) (p : FsPath)
    (h : fastPathHit fs st p = false) :
    (GetFileContent fs st p).2.2 = true := by
  rw [getFileContent_miss_eq fs st p h]
  exact readAndCache_read_flag fs st p

theorem statFs_of_file (fs : Fs) (p : FsPath) (c : Str) (m : Int)
    (hl : lookupPath fs p = some (.file c m)) (hb : p ∉ fs.broken) :
    statFs fs p = some ⟨baseNameOf p, false, m⟩ := by
  simp [statFs, hb, hl, nodeInfo]

theorem statFs_mtime_eq (fs : Fs) (p : FsPath) (c : Str) (m : Int) (info : FInfo)
    (hl : lookupPath fs p = some (.file c m)) (hs : statFs fs p = some info) :
    info.mtime = m := by
  by_cases hb : p ∈ fs.broken
  · rw [show statFs fs p = none by simp [statFs, hb]] at hs
    exact absurd hs (by simp)
  · rw [statFs_of_file fs p c m hl hb] at hs
    injection hs with h
    rw [← h]

theorem readFileFs_of_file (fs : Fs) (p : FsPath) (c : Str) (m : Int)
    (hl : lookupPath fs p = some (.file c m)) (hb : p ∉ fs.readBroken) :
    readFileFs fs p = some c := by
  simp [readFileFs, hb, hl]

/-- After a successful `GetFileContent` call on a statable, readable
file, the cached timestamp for that path is the file's timestamp. -/
theorem getFileContent_mtime_after (fs : Fs) (st : CMState) (p : FsPath)
    (c : Str) (m : Int)
    (hl : lookupPath fs p = some (.file c m))
    (hb : p ∉ fs.broken)
    (hr : p ∉ fs.readBroken) :
    lookupA (GetFileContent fs st p).2.1.fileMtimes p = some m := by
  have hs := statFs_of_file fs p c m hl hb
  have hrd := readFileFs_of_file fs p c m hl hr
  have hrc : lookupA (readAndCache fs st p).2.1.fileMtimes p = some m := by
    unfold readAndCache
    rw [hrd, hs]
    exact lookupA_insertA_self _ _ _
  unfold GetFileContent
  cases hc : lookupA st.fileCache p with
  | none => exact hrc
  | some content =>
    rw [hs]
    cases hm : lookupA st.fileMtimes p with
    | none => exact hrc
    | some m0 =>
      by_cases he : m0 = m
      · simp [he, hm]
      · simp only [show (m0 == (⟨baseNameOf p, false, m⟩ : FInfo).mtime) = false by
          simpa using he]
        simpa using hrc

/-! ## C1: cache hit exactly on stored-timestamp equality, else re-read -/

/-- C1.  `GetFileContent` returns cached content without re-reading the
file exactly when a cache entry for the path exists and its stored
modification timestamp equals the file's current on-disk timestamp
(`fastPathHit`); in every other case — entry absent, timestamp mismatch,
or stat failure on the fast path — the file is re-read from disk.
Consequently, modifying a file's content and timestamp between two calls
makes the second call return the updated content. -/
theorem getFileContent_cache_c1 :
    (∀ (fs : Fs) (st : CMState) (p : FsPath),
      ((GetFileContent fs st p).2.2 = false ↔ fastPathHit fs st p = true)) ∧
    (∀ (fs : Fs) (st : CMState) (p : FsPath),
      fastPathHit fs st p = true →
        GetFileContent fs st p = (lookupA st.fileCache p, st, false)) ∧
    (∀ (fs fs' : Fs) (st : CMState) (p : FsPath) (c c' : Str) (m m' : Int),
      lookupPath fs p = some (.file c m) →
      lookupPath fs' p = some (.file c' m') →
      m ≠ m' →
      p ∉ fs.broken →
      p ∉ fs.readBroken →
      p ∉ fs'.readBroken →
      (GetFileContent fs' (GetFileContent fs st p).2.1 p).1 = some c') := by
  refine ⟨fun fs st p => ?_, fun fs st p => getFileContent_hit fs st p, ?_⟩
  · constructor
    · intro hflag
      by_contra hmiss
      have : fastPathHit fs st p = false := by
        cases h : fastPathHit fs st p
        · rfl
        · exact absurd h hmiss
      rw [getFileContent_miss_flag fs st p this] at hflag
      exact absurd hflag (by decide)
    · intro hhit
      rw [getFileContent_hit fs st p hhit]
  · intro fs fs' st p c c' m m' hl hl' hmm hb hr hr'
    have hmt := getFileContent_mtime_after fs st p c m hl hb hr
    have hrd' := readFileFs_of_file fs' p c' m' hl' hr'
    set st1 := (GetFileContent fs st p).2.1 with hst1
    have hrc : (readAndCache fs' st1 p).1 = some c' := by
      unfold readAndCache
      rw [hrd']
      cases statFs fs' p with
      | none => rfl
      | some info => rfl
    unfold GetFileContent
    cases hc : lookupA st1.fileCache p with
    | none => exact hrc
    | some content =>
      cases hs' : statFs fs' p with
      | none => exact hrc
      | some info =>
        rw [hmt]
        have hinfo : info.mtime = m' := statFs_mtime_eq fs' p c' m' info hl' hs'
        have hne : (m == info.mtime) = false := by
          rw [hinfo]
          simpa using hmm
        simp only [hne, Bool.false_eq_true, if_false]
        exact hrc

/-- Witness for C1 at concrete inputs: a warm cache with the matching
timestamp is a hit and leaves the state untouched; rewriting `f.txt`
(content `"old"`/timestamp 10 to content `"new"`/timestamp 20) between
two calls makes the second call return `"new"`. -/
theorem getFileContent_cache_c1_witness :
    GetFileContent fsOld stWarm ["r", "f.txt"] =
      (lookupA stWarm.fileCache ["r", "f.txt"], stWarm, false) ∧
    (GetFileContent fsNew
        (GetFileContent fsOld CMState.empty ["r", "f.txt"]).2.1 ["r", "f.txt"]).1 =
      some "new".toList :=
  ⟨getFileContent_cache_c1.2.1 fsOld stWarm ["r", "f.txt"] (by decide),
   getFileContent_cache_c1.2.2 fsOld fsNew CMState.empty ["r", "f.txt"]
     "old".toList "new".toList 10 20 rfl rfl (by decide)
     (by simp [fsOld]) (by simp [fsOld]) (by simp [fsNew])⟩

/-! ## C8: ShouldIgnore fails open on stat errors -/

/-- C8.  If the filesystem stat of a path fails, `ShouldIgnore` returns
`false` — the path is treated as not ignorable — regardless of the
configured directory-name literals and file glob patterns. -/
theorem shouldIgnore_fail_open_c8 (fs : Fs) (cm : CMConfig) (p : FsPath)
    (h : statFs fs p = none) : shouldIgnore fs cm p = false := by
  simp [shouldIgnore, h]

/-- Witness for C8: `z.log` does not exist (stat fails), and it is not
ignored even though the default configuration carries the `*.log`
pattern. -/
theorem shouldIgnore_fail_open_c8_witness :
    statFs fsTwoDirs ["r", "z.log"] = none ∧
    cmDefault.ignoreFiles.contains "*.log".toList = true ∧
    shouldIgnore fsTwoDirs cmDefault ["r", "z.log"] = false :=
  ⟨by decide, by decide,
   shouldIgnore_fail_open_c8 fsTwoDirs cmDefault ["r", "z.log"] (by decide)⟩

/-! ## C9: a read error is surfaced and nothing is cached -/

/-- C9.  If reading the file from disk fails, `GetFileContent` leaves the
cache state unchanged, and (whenever the failing read is actually
reached, i.e. the fast path missed) returns the error with no content. -/
theorem getFileContent_read_error_c9 (fs : Fs) (st : CMState) (p : FsPath)
    (h : readFileFs fs p = none) :
    (GetFileContent fs st p).2.1 = st ∧
    (fastPathHit fs st p = false → GetFileContent fs st p = (none, st, true)) := by
  have hrc : readAndCache fs st p = (none, st, true) := by
    unfold readAndCache
    rw [h]
  constructor
  · by_cases hh : fastPathHit fs st p = true
    · rw [getFileContent_hit fs st p hh]
    · rw [getFileContent_miss_eq fs st p (by simpa using hh), hrc]
  · intro hmiss
    rw [getFileContent_miss_eq fs st p hmiss, hrc]

/-- Witness for C9: reading `g.txt` fails on `fsReadFail`; from the empty
cache the call surfaces the error and caches nothing. -/
theorem getFileContent_read_error_c9_witness :
    (GetFileContent fsReadFail CMState.empty ["r", "g.txt"]).2.1 = CMState.empty ∧
    GetFileContent fsReadFail CMState.empty ["r", "g.txt"] =
      (none, CMState.empty, true) :=
  ⟨(getFileContent_read_error_c9 fsReadFail CMState.empty ["r", "g.txt"]
      (by decide)).1,
   (getFileContent_read_error_c9 fsReadFail CMState.empty ["r", "g.txt"]
      (by decide)).2 (by decide)⟩

/-! ## C4: the `maxFiles` limit does not stop the traversal -/

/-- C4 (code bug).  `GetRelevantFiles` answers `filepath.SkipDir` from a
*file* callback once the limit is reached, which only skips the rest of
that file's directory; the walk then continues with sibling directories,
and because the match is appended *before* the limit check, later
matching files are still collected.  On a project with one matching file
in each of two sibling directories and `maxFiles = 1`, the call returns
two paths (and no error), exceeding the limit — contradicting both the
claim and the source's own `// Limit the number of files` comment. -/
theorem getRelevantFiles_limit_c4_bug :
    GetRelevantFiles fsTwoDirs cmDefault "m".toList 1 =
      ([["r", "a", "m.txt"], ["r", "b", "m.txt"]], false) ∧
    (GetRelevantFiles fsTwoDirs cmDefault "m".toList 1).1.length = 2 := by
  constructor
  · decide
  · decide

/-! ## C7: per-entry traversal errors -/

/-- C7 counterexample.  `lstat` fails on the entry `r/x.txt` of
`fsBrokenEntry`.  `GetProjectStructure` returns an error for the whole
call (its callback returns the per-entry error), while `GetRelevantFiles`
on the same filesystem swallows the failure, skips the entry and still
finds `r/y.txt` — so per-entry errors are *not* swallowed by every
traversal-based operation. -/
theorem traversal_error_c7_counterexample :
    statFs fsBrokenEntry ["r", "x.txt"] = none ∧
    GetProjectStructure fsBrokenEntry cmDefault = none ∧
    GetRelevantFiles fsBrokenEntry cmDefault "y".toList 5 =
      ([["r", "y.txt"]], false) := by
  refine ⟨by decide, by decide, by decide⟩

theorem grfStep_no_err (fs : Fs) (cm : CMConfig) (query : Str) (maxFiles : Nat)
    (s : List FsPath) (p : FsPath) (i : Option FInfo) :
    (grfStep fs cm query maxFiles s p i).2 ≠ .err := by
  unfold grfStep
  cases i with
  | none => simp
  | some info =>
    by_cases hd : info.isDir = true
    · by_cases hi : shouldIgnore fs cm p = true <;> simp [hd, hi]
    · by_cases hi : shouldIgnore fs cm p = true
      · simp [hd, hi]
      · simp only [hd, hi, Bool.false_eq_true, if_false]
        split <;> split <;> simp

/-- If the callback never produces a non-`SkipDir` error, neither does the
walk. -/
theorem walk_no_err {σ : Type} (fn : WalkFn σ) (broken : List FsPath)
    (hfn : ∀ s p i, (fn s p i).2 ≠ .err) :
    ∀ k : Nat,
      (∀ (node : FsNode) (s : σ) (path : FsPath) (name : String),
        sizeOf node ≤ k → (walkNode fn broken s path name node).2 ≠ .err) ∧
      (∀ (es : List (String × FsNode)) (s : σ) (path : FsPath),
        sizeOf es ≤ k → (walkEntries fn broken s path es).2 ≠ .err) := by
  intro k
  induction k with
  | zero =>
    constructor
    · intro node s path name hn
      cases node <;> simp at hn
    · intro es s path hes
      cases es with
      | nil => simp [walkEntries]
      | cons h t => simp at hes
  | succ k ih =>
    constructor
    · intro node s path name hn
      cases node with
      | file c m =>
        simpa [walkNode] using hfn s path (some (nodeInfo name (.file c m)))
      | dir es =>
        have hsz : sizeOf es ≤ k := by
          simp at hn
          omega
        unfold walkNode
        rcases hstep : fn s path (some (nodeInfo name (.dir es))) with ⟨s1, r1⟩
        cases r1 with
        | ok => exact ih.2 es s1 path hsz
        | skipDir => simp
        | err =>
          have := hfn s path (some (nodeInfo name (.dir es)))
          rw [hstep] at this
          simp at this
    · intro es s path hes
      cases es with
      | nil => simp [walkEntries]
      | cons e rest =>
        rcases e with ⟨n, c⟩
        have hszc : sizeOf c ≤ k := by
          simp at hes
          omega
        have hszr : sizeOf rest ≤ k := by
          simp at hes
          omega
        unfold walkEntries
        by_cases hbr : broken.contains (path ++ [n]) = true
        · simp only [hbr, if_true]
          rcases hstep : fn s (path ++ [n]) none with ⟨s', r'⟩
          cases r' with
          | ok => exact ih.2 rest s' path hszr
          | skipDir => exact ih.2 rest s' path hszr
          | err =>
            have := hfn s (path ++ [n]) none
            rw [hstep] at this
            simp at this
        · simp only [Bool.not_eq_true] at hbr
          simp only [hbr, Bool.false_eq_true, if_false]
          rcases hstep : walkNode fn broken s (path ++ [n]) n c with ⟨s', r'⟩
          have hwn := ih.1 c s (path ++ [n]) n hszc
          rw [hstep] at hwn
          cases r' with
          | ok => exact ih.2 rest s' path hszr
          | skipDir =>
            cases c with
            | file c0 m0 => simp
            | dir es0 => exact ih.2 rest s' path hszr
          | err => simp at hwn

/-- C7 amended.  Per-entry stat errors are swallowed by
`GetRelevantFiles` — a fault-injected entry contributes nothing, the walk
continues with the remaining entries, and no call of `GetRelevantFiles`
ever reports an error — whereas in `GetProjectStructure` a per-entry stat
error is returned by the callback and is fatal to the whole call. -/
theorem traversal_error_c7_amended :
    (∀ (fs : Fs) (cm : CMConfig) (query : Str) (maxFiles : Nat),
      (GetRelevantFiles fs cm query maxFiles).2 = false) ∧
    (∀ (fs : Fs) (cm : CMConfig) (query : Str) (maxFiles : Nat) (s : List FsPath)
       (path : FsPath) (n : String) (c : FsNode) (rest : List (String × FsNode)),
      fs.broken.contains (path ++ [n]) = true →
      walkEntries (grfStep fs cm query maxFiles) fs.broken s path ((n, c) :: rest) =
        walkEntries (grfStep fs cm query maxFiles) fs.broken s path rest) ∧
    (∀ (fs : Fs) (cm : CMConfig) (s : Str) (path : FsPath) (n : String)
       (c : FsNode) (rest : List (String × FsNode)),
      fs.broken.contains (path ++ [n]) = true →
      walkEntries (gpsStep fs cm) fs.broken s path ((n, c) :: rest) = (s, .err)) := by
  refine ⟨fun fs cm query maxFiles => ?_, fun fs cm query maxFiles s path n c rest hb => ?_,
    fun fs cm s path n c rest hb => ?_⟩
  · unfold GetRelevantFiles walkFs
    cases statFs fs fs.root with
    | none => simp [grfStep]
    | some info =>
      rcases hw : walkNode (grfStep fs cm query maxFiles) fs.broken [] fs.root
          (baseNameOf fs.root) fs.tree with ⟨s, r⟩
      have hne := (walk_no_err (grfStep fs cm query maxFiles) fs.broken
        (grfStep_no_err fs cm query maxFiles) (sizeOf fs.tree)).1 fs.tree []
        fs.root (baseNameOf fs.root) (Nat.le_refl _)
      rw [hw] at hne
      simp only []
      cases r with
      | ok => simp
      | skipDir => simp
      | err => simp at hne
  · rw [walkEntries]
    simp only [hb, if_true]
    rfl
  · rw [walkEntries]
    simp only [hb, if_true]
    rfl

/-- Witness for C7's amended statement at concrete inputs: the skipped
broken entry of `fsBrokenEntry` and the error of `GetProjectStructure`'s
callback loop. -/
theorem traversal_error_c7_amended_witness :
    (GetRelevantFiles fsBrokenEntry cmDefault "y".toList 5).2 = false ∧
    walkEntries (grfStep fsBrokenEntry cmDefault "y".toList 5) fsBrokenEntry.broken
        [] ["r"] [("x.txt", .file [] 0), ("y.txt", .file [] 0)] =
      walkEntries (grfStep fsBrokenEntry cmDefault "y".toList 5) fsBrokenEntry.broken
        [] ["r"] [("y.txt", .file [] 0)] ∧
    walkEntries (gpsStep fsBrokenEntry cmDefault) fsBrokenEntry.broken
        [] ["r"] [("x.txt", .file [] 0), ("y.txt", .file [] 0)] = ([], .err) :=
  ⟨traversal_error_c7_amended.1 fsBrokenEntry cmDefault "y".toList 5,
   traversal_error_c7_amended.2.1 fsBrokenEntry cmDefault "y".toList 5 [] ["r"]
     "x.txt" (.file [] 0) [("y.txt", .file [] 0)] (by decide),
   traversal_error_c7_amended.2.2 fsBrokenEntry cmDefault [] ["r"]
     "x.txt" (.file [] 0) [("y.txt", .file [] 0)] (by decide)⟩

/-! ## C5: directory-resolving relative imports -/

/-- C5 counterexample.  In `fsJsDir`, `a.js` imports `./lib`, which is an
existing directory containing the `.js` source file `b.js`; yet
`findRelatedFiles` returns nothing at all — the JS/TS strategy adds no
files when a relative import resolves to a directory. -/
theorem findRelatedFiles_js_dir_c5_counterexample :
    statFs fsJsDir ["r", "lib"] = some ⟨"lib", true, 0⟩ ∧
    readFileFs fsJsDir ["r", "lib", "b.js"] = some [] ∧
    findRelatedFiles fsJsDir ["r", "a.js"] "import x from './lib'".toList = [] :=
  ⟨by decide, by decide, by decide⟩

theorem goLineRelated_lib (fs : Fs) (dir : FsPath) :
    goLineRelated fs dir "import \"./lib\"".toList =
      (match statFs fs (dir ++ ["lib"]) with
       | some info =>
         if !info.isDir then [dir ++ ["lib"]]
         else
           match readDirFs fs (dir ++ ["lib"]) with
           | some es => goFilesIn (dir ++ ["lib"]) es
           | none => []
       | none => []) := rfl

theorem jsLineRelated_lib (fs : Fs) (dir : FsPath) :
    jsLineRelated fs dir "import x from './lib'".toList =
      (match statFs fs (dir ++ ["lib"]) with
       | some info => if !info.isDir then [dir ++ ["lib"]] else []
       | none =>
         tryJsExts fs (dir ++ ["lib"])
           [".js".toList, ".ts".toList, ".jsx".toList, ".tsx".toList]) := rfl

theorem pyLineRelated_lib (fs : Fs) (dir : FsPath) :
    pyLineRelated fs dir "from .lib import x".toList =
      (match readDirFs fs (dir ++ ["lib"]) with
       | some es => pyFilesIn (dir ++ ["lib"]) es
       | none => []) := rfl

theorem findRelatedFiles_go_split (fs : Fs) (dir : FsPath) (fname : String)
    (content : Str) (hext : fileExtOf fname.toList = ".go".toList) :
    findRelatedFiles fs (dir ++ [fname]) content =
      (splitOnStr ['\n'] content).flatMap (goLineRelated fs dir) ++
        siblingFiles fs dir fname.toList ".go".toList := by
  unfold findRelatedFiles baseNameOf
  rw [List.dropLast_concat, List.getLastD_concat, hext]
  simp

theorem findRelatedFiles_py_split (fs : Fs) (dir : FsPath) (fname : String)
    (content : Str) (hext : fileExtOf fname.toList = ".py".toList) :
    findRelatedFiles fs (dir ++ [fname]) content =
      (splitOnStr ['\n'] content).flatMap (pyLineRelated fs dir) ++
        siblingFiles fs dir fname.toList ".py".toList := by
  unfold findRelatedFiles baseNameOf
  rw [List.dropLast_concat, List.getLastD_concat, hext]
  simp

/-- C5 amended.  When a relative local import resolves to an existing
directory, the *Go* and *Python* strategies add every source file of
their extension directly inside that directory (non-recursively); the
*JS/TS* strategy, by contrast, adds nothing at all in that case. -/
theorem findRelatedFiles_dir_import_c5_amended :
    (∀ (fs : Fs) (dir : FsPath) (fname : String) (content : Str)
       (info : FInfo) (es : List (String × FsNode)) (n : String) (c : Str) (m : Int),
      fileExtOf fname.toList = ".go".toList →
      "import \"./lib\"".toList ∈ splitOnStr ['\n'] content →
      statFs fs (dir ++ ["lib"]) = some info →
      info.isDir = true →
      readDirFs fs (dir ++ ["lib"]) = some es →
      (n, FsNode.file c m) ∈ es →
      fileExtOf n.toList = ".go".toList →
      dir ++ ["lib", n] ∈ findRelatedFiles fs (dir ++ [fname]) content) ∧
    (∀ (fs : Fs) (dir : FsPath) (fname : String) (content : Str)
       (es : List (String × FsNode)) (n : String) (c : Str) (m : Int),
      fileExtOf fname.toList = ".py".toList →
      "from .lib import x".toList ∈ splitOnStr ['\n'] content →
      readDirFs fs (dir ++ ["lib"]) = some es →
      (n, FsNode.file c m) ∈ es →
      fileExtOf n.toList = ".py".toList →
      dir ++ ["lib", n] ∈ findRelatedFiles fs (dir ++ [fname]) content) ∧
    (∀ (fs : Fs) (dir : FsPath) (info : FInfo),
      statFs fs (dir ++ ["lib"]) = some info →
      info.isDir = true →
      jsLineRelated fs dir "import x from './lib'".toList = []) := by
  refine ⟨?_, ?_, ?_⟩
  · intro fs dir fname content info es n c m hext hline hstat hdir hrd hmem hn
    rw [findRelatedFiles_go_split fs dir fname content hext]
    apply List.mem_append_left
    apply List.mem_flatMap.mpr
    refine ⟨"import \"./lib\"".toList, hline, ?_⟩
    rw [goLineRelated_lib, hstat]
    dsimp only
    rw [hdir]
    simp only [Bool.not_true, Bool.false_eq_true, if_false]
    rw [hrd]
    apply List.mem_filterMap.mpr
    refine ⟨(n, FsNode.file c m), hmem, ?_⟩
    dsimp only [goFilesIn]
    rw [hn]
    simp [List.append_assoc]
  · intro fs dir fname content es n c m hext hline hrd hmem hn
    rw [findRelatedFiles_py_split fs dir fname content hext]
    apply List.mem_append_left
    apply List.mem_flatMap.mpr
    refine ⟨"from .lib import x".toList, hline, ?_⟩
    rw [pyLineRelated_lib, hrd]
    apply List.mem_filterMap.mpr
    refine ⟨(n, FsNode.file c m), hmem, ?_⟩
    dsimp only [pyFilesIn]
    rw [hn]
    simp [List.append_assoc]
  · intro fs dir info hstat hdir
    rw [jsLineRelated_lib, hstat]
    dsimp only
    rw [hdir]
    simp

/-- Witness for C5's amended statement: in a Go project mirroring
`fsJsDir`, `lib/b.go` is picked up through the `./lib` import; the Python
analogue picks up `lib/h.py`; and on `fsJsDir` itself the JS line
contributes nothing. -/
theorem findRelatedFiles_dir_import_c5_amended_witness :
    ["r", "lib", "b.go"] ∈
      findRelatedFiles
        { root := ["r"],
          tree := .dir [("a.go", .file "import \"./lib\"".toList 0),
                        ("lib", .dir [("b.go", .file [] 0)])],
          broken := [], readBroken := [] }
        ["r", "a.go"] "import \"./lib\"".toList ∧
    ["r", "lib", "h.py"] ∈
      findRelatedFiles
        { root := ["r"],
          tree := .dir [("m.py", .file "from .lib import x".toList 0),
                        ("lib", .dir [("h.py", .file [] 0)])],
          broken := [], readBroken := [] }
        ["r", "m.py"] "from .lib import x".toList ∧
    jsLineRelated fsJsDir ["r"] "import x from './lib'".toList = [] :=
  ⟨findRelatedFiles_dir_import_c5_amended.1
     _ ["r"] "a.go" "import \"./lib\"".toList ⟨"lib", true, 0⟩
     [("b.go", .file [] 0)] "b.go" [] 0
     (by decide) (by decide) rfl rfl rfl
     (List.mem_singleton.mpr rfl) (by decide),
   findRelatedFiles_dir_import_c5_amended.2.1
     _ ["r"] "m.py" "from .lib import x".toList
     [("h.py", .file [] 0)] "h.py" [] 0
     (by decide) (by decide) rfl
     (List.mem_singleton.mpr rfl) (by decide),
   findRelatedFiles_dir_import_c5_amended.2.2 fsJsDir ["r"] ⟨"lib", true, 0⟩
     rfl rfl⟩

/-! ## Assembler lemmas -/

theorem joinRender_append (l1 l2 : List CtxSection) :
    joinRender (l1 ++ l2) = joinRender l1 ++ joinRender l2 := by
  induction l1 with
  | nil => simp [joinRender]
  | cons s rest ih => simp [joinRender, ih]

theorem primaryTotal_append (l1 l2 : List CtxSection) :
    primaryTotal (l1 ++ l2) = primaryTotal l1 + primaryTotal l2 := by
  simp [primaryTotal]

theorem relatedTotal_append (l1 l2 : List CtxSection) :
    relatedTotal (l1 ++ l2) = relatedTotal l1 + relatedTotal l2 := by
  simp [relatedTotal]

theorem joinRender_length (l : List CtxSection) :
    (joinRender l).length = primaryTotal l + relatedTotal l + noticeTotal l := by
  induction l with
  | nil => simp [joinRender, primaryTotal, relatedTotal, noticeTotal]
  | cons s rest ih =>
    cases s <;>
      simp [joinRender, primaryTotal, relatedTotal, noticeTotal, renderSection,
        ih] <;>
      omega

/-- `GetFileContext`'s string accumulator and `assembleSections`'s section
accumulator run in lockstep: the string is always the rendering of the
sections, and sizes and cache states agree. -/
theorem ctx_sections_fold (fs : Fs) (cm : CMConfig) (l : List FsPath) :
    ∀ (secs : List CtxSection) (total : Nat) (st : CMState),
      (l.foldl (ctxStep fs cm) (joinRender secs, total, st)).1 =
        joinRender (l.foldl (sectionStep fs cm) (secs, total, st)).1 ∧
      (l.foldl (ctxStep fs cm) (joinRender secs, total, st)).2 =
        (l.foldl (sectionStep fs cm) (secs, total, st)).2 := by
  induction l with
  | nil => intro secs total st; exact ⟨rfl, rfl⟩
  | cons rf rest ih =>
    intro secs total st
    simp only [List.foldl_cons]
    rcases hgc : GetFileContent fs st rf with ⟨o, st', b⟩
    cases o with
    | none =>
      have hc : ctxStep fs cm (joinRender secs, total, st) rf =
          (joinRender secs, total, st') := by
        simp [ctxStep, hgc]
      have hsec : sectionStep fs cm (secs, total, st) rf = (secs, total, st') := by
        simp [sectionStep, hgc]
      rw [hc, hsec]
      exact ih secs total st'
    | some rc =>
      by_cases hb : cm.maxContextLen < total + (mkRelated (relStr fs rf) rc).length
      · have hc : ctxStep fs cm (joinRender secs, total, st) rf =
            (joinRender secs ++ mkNotice (relStr fs rf), total, st') := by
          simp [ctxStep, hgc, hb]
        have hsec : sectionStep fs cm (secs, total, st) rf =
            (secs ++ [.notice (relStr fs rf)], total, st') := by
          simp [sectionStep, hgc, hb]
        rw [hc, hsec]
        have hjr : joinRender secs ++ mkNotice (relStr fs rf) =
            joinRender (secs ++ [.notice (relStr fs rf)]) := by
          simp [joinRender_append, joinRender, renderSection]
        rw [hjr]
        exact ih (secs ++ [.notice (relStr fs rf)]) total st'
      · have hc : ctxStep fs cm (joinRender secs, total, st) rf =
            (joinRender secs ++ mkRelated (relStr fs rf) rc,
              total + (mkRelated (relStr fs rf) rc).length, st') := by
          simp [ctxStep, hgc, hb]
        have hsec : sectionStep fs cm (secs, total, st) rf =
            (secs ++ [.related (relStr fs rf) rc],
              total + (mkRelated (relStr fs rf) rc).length, st') := by
          simp [sectionStep, hgc, hb]
        rw [hc, hsec]
        have hjr : joinRender secs ++ mkRelated (relStr fs rf) rc =
            joinRender (secs ++ [.related (relStr fs rf) rc]) := by
          simp [joinRender_append, joinRender, renderSection]
        rw [hjr]
        exact ih (secs ++ [.related (relStr fs rf) rc])
          (total + (mkRelated (relStr fs rf) rc).length) st'

/-- `GetFileContext` is the rendering of `assembleSections`. -/
theorem getFileContext_eq_joinRender (fs : Fs) (cm : CMConfig) (st : CMState)
    (p : FsPath) :
    (GetFileContext fs cm st p).1 =
      ((assembleSections fs cm st p).1).map joinRender ∧
    (GetFileContext fs cm st p).2 = (assembleSections fs cm st p).2 := by
  unfold GetFileContext assembleSections
  rcases hgc : GetFileContent fs st p with ⟨o, st1, b⟩
  cases o with
  | none => exact ⟨rfl, rfl⟩
  | some content =>
    dsimp only [renderSection]
    have h0 : mkPrimary (relStr fs p) content =
        joinRender [.primary (relStr fs p) content] := by
      simp [joinRender, renderSection]
    have hmain := ctx_sections_fold fs cm (findRelatedFiles fs p content)
      [.primary (relStr fs p) content]
      (mkPrimary (relStr fs p) content).length st1
    rw [← h0] at hmain
    exact ⟨by rw [hmain.1]; rfl, by rw [hmain.2]⟩

/-- Every step of the assembly appends at most one section, whose path is
the current related file's relative path. -/
theorem sections_fold_tail (fs : Fs) (cm : CMConfig) :
    ∀ (l : List FsPath) (secs : List CtxSection) (total : Nat) (st : CMState),
      ∃ t, (l.foldl (sectionStep fs cm) (secs, total, st)).1 = secs ++ t ∧
        List.Sublist (t.map sectionPath) (l.map (relStr fs)) := by
  intro l
  induction l with
  | nil =>
    intro secs total st
    exact ⟨[], by simp, by simp⟩
  | cons rf rest ih =>
    intro secs total st
    simp only [List.foldl_cons, List.map_cons]
    rcases hgc : GetFileContent fs st rf with ⟨o, st', b⟩
    cases o with
    | none =>
      have hsec : sectionStep fs cm (secs, total, st) rf = (secs, total, st') := by
        simp [sectionStep, hgc]
      rw [hsec]
      obtain ⟨t, ht, hsub⟩ := ih secs total st'
      exact ⟨t, ht, hsub.trans (List.sublist_cons_self _ _)⟩
    | some rc =>
      by_cases hb : cm.maxContextLen < total + (mkRelated (relStr fs rf) rc).length
      · have hsec : sectionStep fs cm (secs, total, st) rf =
            (secs ++ [.notice (relStr fs rf)], total, st') := by
          simp [sectionStep, hgc, hb]
        rw [hsec]
        obtain ⟨t, ht, hsub⟩ := ih (secs ++ [.notice (relStr fs rf)]) total st'
        refine ⟨.notice (relStr fs rf) :: t, by simp [ht], ?_⟩
        simpa [sectionPath] using List.Sublist.cons₂ (relStr fs rf) hsub
      · have hsec : sectionStep fs cm (secs, total, st) rf =
            (secs ++ [.related (relStr fs rf) rc],
              total + (mkRelated (relStr fs rf) rc).length, st') := by
          simp [sectionStep, hgc, hb]
        rw [hsec]
        obtain ⟨t, ht, hsub⟩ := ih (secs ++ [.related (relStr fs rf) rc])
          (total + (mkRelated (relStr fs rf) rc).length) st'
        refine ⟨.related (relStr fs rf) rc :: t, by simp [ht], ?_⟩
        simpa [sectionPath] using List.Sublist.cons₂ (relStr fs rf) hsub

/-- The budget invariant of the assembly loop: the running total is the
primary size plus the related sizes, and once any related section has
been included the running total is within the budget. -/
theorem sections_fold_budget (fs : Fs) (cm : CMConfig) :
    ∀ (l : List FsPath) (secs : List CtxSection) (total : Nat) (st : CMState),
      total = primaryTotal secs + relatedTotal secs →
      (relatedTotal secs = 0 ∨ total ≤ cm.maxContextLen) →
      (l.foldl (sectionStep fs cm) (secs, total, st)).2.1 =
          primaryTotal (l.foldl (sectionStep fs cm) (secs, total, st)).1 +
            relatedTotal (l.foldl (sectionStep fs cm) (secs, total, st)).1 ∧
        (relatedTotal (l.foldl (sectionStep fs cm) (secs, total, st)).1 = 0 ∨
          (l.foldl (sectionStep fs cm) (secs, total, st)).2.1 ≤ cm.maxContextLen) ∧
        primaryTotal (l.foldl (sectionStep fs cm) (secs, total, st)).1 =
          primaryTotal secs := by
  intro l
  induction l with
  | nil =>
    intro secs total st h1 h2
    exact ⟨h1, h2, rfl⟩
  | cons rf rest ih =>
    intro secs total st h1 h2
    simp only [List.foldl_cons]
    rcases hgc : GetFileContent fs st rf with ⟨o, st', b⟩
    cases o with
    | none =>
      have hsec : sectionStep fs cm (secs, total, st) rf = (secs, total, st') := by
        simp [sectionStep, hgc]
      rw [hsec]
      exact ih secs total st' h1 h2
    | some rc =>
      by_cases hb : cm.maxContextLen < total + (mkRelated (relStr fs rf) rc).length
      · have hsec : sectionStep fs cm (secs, total, st) rf =
            (secs ++ [.notice (relStr fs rf)], total, st') := by
          simp [sectionStep, hgc, hb]
        rw [hsec]
        have hrt : relatedTotal (secs ++ [.notice (relStr fs rf)]) =
            relatedTotal secs := by
          simp [relatedTotal_append, relatedTotal]
        have hpt : primaryTotal (secs ++ [.notice (relStr fs rf)]) =
            primaryTotal secs := by
          simp [primaryTotal_append, primaryTotal]
        have := ih (secs ++ [.notice (relStr fs rf)]) total st'
          (by rw [hrt, hpt]; exact h1) (by rw [hrt]; exact h2)
        rw [hpt] at this
        exact this
      · have hsec : sectionStep fs cm (secs, total, st) rf =
            (secs ++ [.related (relStr fs rf) rc],
              total + (mkRelated (relStr fs rf) rc).length, st') := by
          simp [sectionStep, hgc, hb]
        rw [hsec]
        have hrt : relatedTotal (secs ++ [.related (relStr fs rf) rc]) =
            relatedTotal secs + (mkRelated (relStr fs rf) rc).length := by
          simp [relatedTotal_append, relatedTotal]
        have hpt : primaryTotal (secs ++ [.related (relStr fs rf) rc]) =
            primaryTotal secs := by
          simp [primaryTotal_append, primaryTotal]
        have := ih (secs ++ [.related (relStr fs rf) rc])
          (total + (mkRelated (relStr fs rf) rc).length) st'
          (by rw [hrt, hpt]; omega) (by right; omega)
        rw [hpt] at this
        exact this

theorem ctx_fold_extends (fs : Fs) (cm : CMConfig) :
    ∀ (l : List FsPath) (ctx : Str) (total : Nat) (st : CMState),
      ∃ t, (l.foldl (ctxStep fs cm) (ctx, total, st)).1 = ctx ++ t := by
  intro l
  induction l with
  | nil =>
    intro ctx total st
    exact ⟨[], by simp⟩
  | cons rf rest ih =>
    intro ctx total st
    simp only [List.foldl_cons]
    rcases hgc : GetFileContent fs st rf with ⟨o, st', b⟩
    cases o with
    | none =>
      have hc : ctxStep fs cm (ctx, total, st) rf = (ctx, total, st') := by
        simp [ctxStep, hgc]
      rw [hc]
      exact ih ctx total st'
    | some rc =>
      by_cases hb : cm.maxContextLen < total + (mkRelated (relStr fs rf) rc).length
      · have hc : ctxStep fs cm (ctx, total, st) rf =
            (ctx ++ mkNotice (relStr fs rf), total, st') := by
          simp [ctxStep, hgc, hb]
        rw [hc]
        obtain ⟨t, ht⟩ := ih (ctx ++ mkNotice (relStr fs rf)) total st'
        exact ⟨mkNotice (relStr fs rf) ++ t, by simp [ht]⟩
      · have hc : ctxStep fs cm (ctx, total, st) rf =
            (ctx ++ mkRelated (relStr fs rf) rc,
              total + (mkRelated (relStr fs rf) rc).length, st') := by
          simp [ctxStep, hgc, hb]
        rw [hc]
        obtain ⟨t, ht⟩ := ih (ctx ++ mkRelated (relStr fs rf) rc)
          (total + (mkRelated (relStr fs rf) rc).length) st'
        exact ⟨mkRelated (relStr fs rf) rc ++ t, by simp [ht]⟩

/-! ## C3: the primary file is never dropped -/

/-- C3.  Whenever the primary file is readable, the output of
`GetFileContext` starts with the primary block — which contains the
primary file's full content verbatim — no matter how small
`maxContextLen` is; the budget is only ever enforced against related
content. -/
theorem getFileContext_primary_c3 (fs : Fs) (cm : CMConfig) (st : CMState)
    (p : FsPath) (content : Str) (st1 : CMState) (b : Bool)
    (h : GetFileContent fs st p = (some content, st1, b)) :
    ∃ t, (GetFileContext fs cm st p).1 =
      some (mkPrimary (relStr fs p) content ++ t) := by
  unfold GetFileContext
  rw [h]
  dsimp only
  obtain ⟨t, ht⟩ := ctx_fold_extends fs cm (findRelatedFiles fs p content)
    (mkPrimary (relStr fs p) content) (mkPrimary (relStr fs p) content).length st1
  exact ⟨t, by rw [ht]⟩

/-- Witness for C3: on `fsBudget` with budget 100 (smaller than the
primary plus any related block), the output still starts with the full
primary block of `a.go`. -/
theorem getFileContext_primary_c3_witness :
    ∃ t, (GetFileContext fsBudget cmBudget CMState.empty ["r", "a.go"]).1 =
      some (mkPrimary (relStr fsBudget ["r", "a.go"]) "import \"./lib\"".toList ++ t) :=
  getFileContext_primary_c3 fsBudget cmBudget CMState.empty ["r", "a.go"]
    "import \"./lib\"".toList
    (GetFileContent fsBudget CMState.empty ["r", "a.go"]).2.1
    (GetFileContent fsBudget CMState.empty ["r", "a.go"]).2.2 rfl

/-! ## C2: the related sections respect the budget -/

/-- Budget facts about any assembled section list: once a related section
exists, primary plus related sizes stay within the budget. -/
theorem assembled_budget (fs : Fs) (cm : CMConfig) (st : CMState) (p : FsPath)
    (secs : List CtxSection) (st' : CMState)
    (h : assembleSections fs cm st p = (some secs, st')) :
    relatedTotal secs = 0 ∨
      primaryTotal secs + relatedTotal secs ≤ cm.maxContextLen := by
  unfold assembleSections at h
  rcases hgc : GetFileContent fs st p with ⟨o, st1, b⟩
  rw [hgc] at h
  cases o with
  | none => simp at h
  | some content =>
    dsimp only at h
    have hsecs : (List.foldl (sectionStep fs cm)
        ([.primary (relStr fs p) content],
          (renderSection (.primary (relStr fs p) content)).length, st1)
        (findRelatedFiles fs p content)).1 = secs := by
      have := congrArg Prod.fst h
      simpa using this
    have hinit1 : (renderSection (.primary (relStr fs p) content)).length =
        primaryTotal [.primary (relStr fs p) content] +
          relatedTotal [.primary (relStr fs p) content] := by
      simp [primaryTotal, relatedTotal, renderSection]
    have hinit2 : relatedTotal [.primary (relStr fs p) content] = 0 ∨
        (renderSection (.primary (relStr fs p) content)).length ≤
          cm.maxContextLen := by
      left
      simp [relatedTotal]
    have hbud := sections_fold_budget fs cm (findRelatedFiles fs p content)
      [.primary (relStr fs p) content]
      (renderSection (.primary (relStr fs p) content)).length st1 hinit1 hinit2
    rw [hsecs] at hbud
    omega

/-- C2.  The output of `GetFileContext` is the rendering of
`assembleSections`, and in any assembled section list the total size of
the related-file sections (the fenced related blocks, truncation notices
not counted) never exceeds `maxContextLen` minus the primary section's
size by more than the size of one maximal truncation notice (sizes are
naturals, with truncated subtraction). -/
theorem getFileContext_budget_c2 (fs : Fs) (cm : CMConfig) (st : CMState)
    (p : FsPath) :
    ((GetFileContext fs cm st p).1 =
      ((assembleSections fs cm st p).1).map joinRender) ∧
    (∀ secs st', assembleSections fs cm st p = (some secs, st') →
      relatedTotal secs ≤ cm.maxContextLen - primaryTotal secs + noticeMax secs) := by
  refine ⟨(getFileContext_eq_joinRender fs cm st p).1, ?_⟩
  intro secs st' h
  have := assembled_budget fs cm st p secs st' h
  omega

/-- Witness for C2 at the concrete `fsBudget` project. -/
theorem getFileContext_budget_c2_witness :
    ((GetFileContext fsBudget cmBudget CMState.empty ["r", "a.go"]).1 =
      ((assembleSections fsBudget cmBudget CMState.empty ["r", "a.go"]).1).map
        joinRender) ∧
    relatedTotal budgetSections ≤
      cmBudget.maxContextLen - primaryTotal budgetSections +
        noticeMax budgetSections :=
  ⟨(getFileContext_budget_c2 fsBudget cmBudget CMState.empty ["r", "a.go"]).1,
   (getFileContext_budget_c2 fsBudget cmBudget CMState.empty ["r", "a.go"]).2
     budgetSections
     (assembleSections fsBudget cmBudget CMState.empty ["r", "a.go"]).2 rfl⟩

/-! ## C6: section order -/

/-- C6 counterexample.  On `fsBudget`, the truncation notice for
`lib/big.go` appears *before* the related section of `lib/small.go` —
notices are emitted inline at the skipped file's position, not collected
after all related sections. -/
theorem getFileContext_order_c6_counterexample :
    (assembleSections fsBudget cmBudget CMState.empty ["r", "a.go"]).1 =
      some budgetSections ∧
    budgetSections.get? 1 = some (.notice "lib/big.go".toList) ∧
    budgetSections.get? 2 = some (.related "lib/small.go".toList ['x']) ∧
    noticeBeforeRelated budgetSections = true :=
  ⟨by decide, by decide, by decide, by decide⟩

/-- C6 amended.  The primary section always comes first, and the
remaining sections — related blocks and truncation notices together —
appear in the order `findRelatedFiles` produced their files, each related
file contributing at most one section; a notice may therefore precede a
later file's related block. -/
theorem getFileContext_order_c6_amended (fs : Fs) (cm : CMConfig) (st : CMState)
    (p : FsPath) (content : Str) (st1 : CMState) (b : Bool)
    (secs : List CtxSection) (st' : CMState)
    (h1 : GetFileContent fs st p = (some content, st1, b))
    (h2 : assembleSections fs cm st p = (some secs, st')) :
    secs.head? = some (.primary (relStr fs p) content) ∧
    List.Sublist (secs.tail.map sectionPath)
      ((findRelatedFiles fs p content).map (relStr fs)) := by
  unfold assembleSections at h2
  rw [h1] at h2
  dsimp only at h2
  have hsecs : (List.foldl (sectionStep fs cm)
      ([.primary (relStr fs p) content],
        (renderSection (.primary (relStr fs p) content)).length, st1)
      (findRelatedFiles fs p content)).1 = secs := by
    have := congrArg Prod.fst h2
    simpa using this
  obtain ⟨t, ht, hsub⟩ := sections_fold_tail fs cm (findRelatedFiles fs p content)
    [.primary (relStr fs p) content]
    (renderSection (.primary (relStr fs p) content)).length st1
  rw [hsecs] at ht
  subst ht
  exact ⟨rfl, hsub⟩

/-- Witness for C6's amended statement on the concrete `fsBudget`
project. -/
theorem getFileContext_order_c6_amended_witness :
    budgetSections.head? =
      some (.primary (relStr fsBudget ["r", "a.go"]) "import \"./lib\"".toList) ∧
    List.Sublist (budgetSections.tail.map sectionPath)
      ((findRelatedFiles fsBudget ["r", "a.go"] "import \"./lib\"".toList).map
        (relStr fsBudget)) :=
  getFileContext_order_c6_amended fsBudget cmBudget CMState.empty ["r", "a.go"]
    "import \"./lib\"".toList
    (GetFileContent fsBudget CMState.empty ["r", "a.go"]).2.1
    (GetFileContent fsBudget CMState.empty ["r", "a.go"]).2.2
    budgetSections
    (assembleSections fsBudget cmBudget CMState.empty ["r", "a.go"]).2 rfl rfl

/-! ## C10: truncation notices are never counted against the budget -/

/-- C10.  The rendered output decomposes as primary size plus related
sizes plus notice sizes, where only the first two are ever compared
against the budget (the related sizes respect `maxContextLen` minus the
primary size); the notices themselves are never counted, so the complete
output can exceed the budget — on `fsBudget` (budget 100) the output is
154 characters long, while every included related section respected the
budget. -/
theorem getFileContext_notices_uncounted_c10 :
    (∀ (fs : Fs) (cm : CMConfig) (st : CMState) (p : FsPath)
       (secs : List CtxSection) (st' : CMState),
      assembleSections fs cm st p = (some secs, st') →
      (joinRender secs).length =
          primaryTotal secs + relatedTotal secs + noticeTotal secs ∧
        relatedTotal secs ≤ cm.maxContextLen - primaryTotal secs) ∧
    ((GetFileContext fsBudget cmBudget CMState.empty ["r", "a.go"]).1.map
        List.length = some 154 ∧
      cmBudget.maxContextLen = 100) := by
  constructor
  · intro fs cm st p secs st' h
    refine ⟨joinRender_length secs, ?_⟩
    have := assembled_budget fs cm st p secs st' h
    omega
  · exact ⟨by decide, by decide⟩

/-- Witness for C10's general conjunct at the concrete `fsBudget`
project. -/
theorem getFileContext_notices_uncounted_c10_witness :
    ((joinRender budgetSections).length =
        primaryTotal budgetSections + relatedTotal budgetSections +
          noticeTotal budgetSections ∧
      relatedTotal budgetSections ≤
        cmBudget.maxContextLen - primaryTotal budgetSections) ∧
    ((GetFileContext fsBudget cmBudget CMState.empty ["r", "a.go"]).1.map
        List.length = some 154 ∧ cmBudget.maxContextLen = 100) :=
  ⟨getFileContext_notices_uncounted_c10.1 fsBudget cmBudget CMState.empty
     ["r", "a.go"] budgetSections
     (assembleSections fsBudget cmBudget CMState.empty ["r", "a.go"]).2 rfl,
   getFileContext_notices_uncounted_c10.2⟩

end OllamaCode
